import Mathlib

/-!
Verification development for the docs.rs MCP server (`src/index.ts`).

The core logic embedded here:
* URL resolution for `docs_rs_get_item` (split on `"::"`, module vs non-module).
* HTML fragment extraction for `docs_rs_readme` (`getReadMe`) and
  `docs_rs_get_item` (`getItem`), modelled over an abstract page that records,
  for each CSS selector the code consults, whether a matching element exists
  and its inner HTML.
* The item-index parsing of `docs_rs_search_in_crate` (`searchInCrate`):
  candidate collection, substring-based type classification, name/type
  filters, link normalization, and `filter`/`findIndex` deduplication.

JS strings are modelled as Lean `String`; JS `String.prototype.includes`,
`toLowerCase`, `split("::")`, `replaceAll("::","/")` are modelled by
executable functions below.  The HTML→Markdown converter (turndown) is an
external library and is passed as an uninterpreted function argument.
-/

namespace DocsRsMcp

/-- `startsWithL l p` : `p` is a prefix of `l` (char-list form of
`String.startsWith`, used to build JS `includes`). -/
def startsWithL : List Char → List Char → Bool
  | _, [] => true
  | [], _ :: _ => false
  | a :: l, b :: p => a == b && startsWithL l p

/-- `containsL p l` : `p` occurs as a contiguous run somewhere in `l`;
models JS `String.prototype.includes` on char lists. -/
def containsL (p : List Char) : List Char → Bool
  | [] => startsWithL [] p
  | a :: l => startsWithL (a :: l) p || containsL p l

/-- Model of JS `s.includes(pat)`. -/
def jsIncludes (s pat : String) : Bool :=
  containsL pat.data s.data

/-- Model of JS `s.toLowerCase()` (ASCII case folding). -/
def jsToLower (s : String) : String :=
  s.map Char.toLower

/-- Model of JS `s.trim()`: strip leading and trailing whitespace. -/
def jsTrim (s : String) : String :=
  String.mk (((s.data.dropWhile Char.isWhitespace).reverse.dropWhile
    Char.isWhitespace).reverse)

/-- Model of JS `s.startsWith(pat)`. -/
def jsStartsWith (s pat : String) : Bool :=
  startsWithL s.data pat.data

/-- Model of JS `s.split("::")` on char lists: greedy left-to-right scan for
the two-character separator `::`. -/
def splitDC : List Char → List (List Char)
  | [] => [[]]
  | [c] => [[c]]
  | c₁ :: c₂ :: rest =>
    if c₁ = ':' ∧ c₂ = ':' then
      [] :: splitDC rest
    else
      match splitDC (c₂ :: rest) with
      | s :: ss => (c₁ :: s) :: ss
      | [] => [[c₁]]

/-- Model of JS `item_path.split("::")` on strings. -/
def jsSplitDoubleColon (s : String) : List String :=
  (splitDC s.data).map (fun l => String.mk l)

/-- The URL built by `getItem` (src/index.ts lines 257–268):
`item_name = item_path.split("::").pop()`; for modules the path segments are
joined with `/` before `/index.html`; otherwise all segments but the last are
joined with `/` and the leaf is `{item_type}.{item_name}.html`.
(`replaceAll("::","/")` is modelled as split-then-join, which agrees with it
for a non-empty separator.) -/
def resolveItemUrl (crate_name version item_type item_path : String) : String :=
  let parts := jsSplitDoubleColon item_path
  let item_name := parts.getLast?.getD ""
  if item_type = "module" then
    "https://docs.rs/" ++ crate_name ++ "/" ++ version ++ "/" ++
      String.intercalate "/" parts ++ "/index.html"
  else
    let modulePath := String.intercalate "/" parts.dropLast
    "https://docs.rs/" ++ crate_name ++ "/" ++ version ++ "/" ++ modulePath ++
      "/" ++ item_type ++ "." ++ item_name ++ ".html"

/-- Abstract view of a fetched docs.rs HTML page, recording for each CSS
selector consulted by the code whether a (first) matching element exists and
its inner HTML.  `none` = selection empty (`length === 0`, `.html()` is
`null`); `some h` = element present with inner HTML `h` (possibly `""`). -/
structure Page where
  /-- `$("#main-content")` -/
  mainContent : Option String
  /-- `$(".rustdoc .item-decl").first()` -/
  itemDecl : Option String
  /-- `$(".rustdoc .docblock").first()` -/
  docblock : Option String
  /-- `$(".rustdoc-main .item-decl").first()` -/
  altItemDecl : Option String
deriving DecidableEq, Repr

/-- `x.html() || ""`: `null` (absent) and `""` both become `""`. -/
def htmlOrEmpty (sel : Option String) : String :=
  sel.getD ""

/-- The `contentHtml` computed by `getItem` (src/index.ts lines 273–294):
if `#main-content` is non-empty as a selection, its inner HTML is the whole
fragment; otherwise the declaration block is appended if present, then the
description block if present, else the alternate declaration block if
present. -/
def extractItemContent (page : Page) : String :=
  match page.mainContent with
  | some h => h
  | none =>
    let fromDecl :=
      match page.itemDecl with
      | some h => h
      | none => ""
    match page.docblock with
    | none =>
      match page.altItemDecl with
      | some h => fromDecl ++ h
      | none => fromDecl
    | some h => fromDecl ++ h

/-- Result of one tool call: `.ok text` is the single text payload,
`.error msg` a thrown error. -/
abbrev ToolResult := Except String String

/-- `getReadMe` (src/index.ts lines 213–252).  The network fetch is passed in
as `fetch : Except String Page` (`.error e` = the awaited GET threw, with
`${error}` rendering to `e`); `td` models the turndown conversion.  Note the
code checks `.rustdoc-main .item-decl` only to decide whether to emit the
not-found message: the rendered fragment is always
`mainContent.html() || ""`. -/
def getReadMe (crate_name version : String) (fetch : Except String Page)
    (td : String → String) : ToolResult :=
  match fetch with
  | .error error =>
    .error ("Failed to get README for " ++ crate_name ++ ": " ++ error)
  | .ok page =>
    let url := "https://docs.rs/" ++ crate_name ++ "/" ++ version ++ "/" ++
      crate_name ++ "/index.html"
    let mainContent := page.docblock
    if mainContent.isNone ∧ page.altItemDecl.isNone then
      .ok ("# " ++ crate_name ++ " Documentation\n\nNo documentation content found at "
        ++ url)
    else
      let htmlContent := htmlOrEmpty mainContent
      .ok ("# " ++ crate_name ++ " Documentation\n\n" ++ td htmlContent)

/-- `getItem` (src/index.ts lines 254–323): resolve the URL, fetch, extract
`contentHtml`; an empty fragment yields the not-found payload, otherwise the
heading plus URL plus rendered Markdown. -/
def getItem (crate_name item_type item_path version : String)
    (fetch : Except String Page) (td : String → String) : ToolResult :=
  match fetch with
  | .error error =>
    .error ("Failed to get item documentation for " ++ item_path ++ ": " ++ error)
  | .ok page =>
    let url := resolveItemUrl crate_name version item_type item_path
    let contentHtml := extractItemContent page
    if contentHtml = "" then
      .ok ("# " ++ item_path ++ " (" ++ item_type ++ ")\n\nNo documentation content found at "
        ++ url)
    else
      .ok ("# " ++ item_path ++ " (" ++ item_type ++ ")\n\n**Documentation URL:** "
        ++ url ++ "\n\n" ++ td contentHtml)

/-- An entry of `searchInCrate`'s `items` array. -/
structure IndexedItem where
  name : String
  type : String
  link : String
deriving DecidableEq, Repr

/-- The type-classification chain of `searchInCrate`
(src/index.ts lines 346–354): first matching substring of the link target
wins, otherwise `"unknown"`. -/
def classifyLink (itemLink : String) : String :=
  if jsIncludes itemLink "struct." then "struct"
  else if jsIncludes itemLink "trait." then "trait"
  else if jsIncludes itemLink "fn." then "function"
  else if jsIncludes itemLink "enum." then "enum"
  else if jsIncludes itemLink "type." then "type"
  else if jsIncludes itemLink "const." then "constant"
  else if jsIncludes itemLink "static." then "static"
  else if jsIncludes itemLink "macro." then "macro"
  else "unknown"

/-- `matchesQuery` (src/index.ts line 356):
`!query || query == "" || itemName.toLowerCase().includes(query.toLowerCase())`. -/
def matchesQueryFilter (query : Option String) (itemName : String) : Bool :=
  match query with
  | none => true
  | some q => q == "" || jsIncludes (jsToLower itemName) (jsToLower q)

/-- `matchesType` (src/index.ts line 357):
`!item_type || item_type == "" || type === item_type || itemName.toLowerCase().includes(item_type.toLowerCase())`. -/
def matchesTypeFilter (item_type : Option String) (type itemName : String) : Bool :=
  match item_type with
  | none => true
  | some t => t == "" || type == t || jsIncludes (jsToLower itemName) (jsToLower t)

/-- Link normalization (src/index.ts line 363): relative targets are rooted
at the crate's documentation root, absolute (`http…`) targets pass through. -/
def normalizeLink (crate_name version itemLink : String) : String :=
  if jsStartsWith itemLink "http" then itemLink
  else "https://docs.rs/" ++ crate_name ++ "/" ++ version ++ "/" ++ crate_name ++
    "/" ++ itemLink

/-- The `$("#main-content a").each(...)` loop of `searchInCrate`
(src/index.ts lines 339–366), over the page's anchor list given as
`(text, href)` pairs (`href` already `attr("href") || ""`). -/
def collectItems (crate_name version : String) (query item_type : Option String) :
    List (String × String) → List IndexedItem
  | [] => []
  | (text, href) :: rest =>
    let itemName := jsTrim text
    let itemLink := href
    if itemName = "" ∨ itemLink = "" then
      collectItems crate_name version query item_type rest
    else
      let type := classifyLink itemLink
      let matchesQuery := matchesQueryFilter query itemName
      let matchesType := matchesTypeFilter item_type type itemName
      if matchesQuery && matchesType && !(type == "unknown") then
        { name := itemName, type := type,
          link := normalizeLink crate_name version itemLink } ::
          collectItems crate_name version query item_type rest
      else
        collectItems crate_name version query item_type rest

/-- JS `Array.prototype.findIndex`. -/
def jsFindIndex (p : IndexedItem → Bool) : List IndexedItem → Option Nat
  | [] => none
  | x :: xs => if p x then some 0 else (jsFindIndex p xs).map (· + 1)

/-- The body of the dedup `filter` (src/index.ts lines 368–370): walk `self`
with its index, keeping `item` iff `index === self.findIndex(i => i.name ===
item.name && i.type === item.type)`. -/
def jsDedupFrom (self : List IndexedItem) : Nat → List IndexedItem → List IndexedItem
  | _, [] => []
  | index, item :: rest =>
    if jsFindIndex (fun i => i.name == item.name && i.type == item.type) self
        = some index then
      item :: jsDedupFrom self (index + 1) rest
    else
      jsDedupFrom self (index + 1) rest

/-- `uniqueItems = items.filter((item, index, self) => index ===
self.findIndex(i => i.name === item.name && i.type === item.type))`. -/
def jsDedup (items : List IndexedItem) : List IndexedItem :=
  jsDedupFrom items 0 items

/-- The item list `searchInCrate` reports (collection then deduplication). -/
def searchInCrateItems (crate_name version : String)
    (query item_type : Option String) (links : List (String × String)) :
    List IndexedItem :=
  jsDedup (collectItems crate_name version query item_type links)

/-! ### Spec-side definitions

These follow the spec's words (for refinement comparison with the
source-derived definitions above). -/

/-- Spec §4.4: the ordered table of (pattern, kind) pairs, "checked in this
fixed priority order: struct, trait, function, enum, type, constant, static,
macro". -/
def typePatterns : List (String × String) :=
  [("struct.", "struct"), ("trait.", "trait"), ("fn.", "function"),
   ("enum.", "enum"), ("type.", "type"), ("const.", "constant"),
   ("static.", "static"), ("macro.", "macro")]

/-- Spec §4.4 classification: scan the ordered table top-to-bottom, first
matching substring wins, no match → `"unknown"`. -/
def classifySpec (link : String) : String :=
  match typePatterns.find? (fun pr => jsIncludes link pr.1) with
  | some pr => pr.2
  | none => "unknown"

/-- Spec §4.4 deduplication: keep the first occurrence of each
`(name, type)` identity key, preserving encounter order.  `seen` is the set
of keys already emitted. -/
def specDedup (seen : List (String × String)) :
    List IndexedItem → List IndexedItem
  | [] => []
  | x :: xs =>
    if (x.name, x.type) ∈ seen then specDedup seen xs
    else x :: specDedup ((x.name, x.type) :: seen) xs

/-- Join path segments with `"::"` (the inverse image used to state the URL
resolution claims over segment lists). -/
def joinDC : List String → String
  | [] => ""
  | [s] => s
  | s :: rest => s ++ "::" ++ joinDC rest

/-! ### Helper lemmas: substring occurrence -/

theorem startsWithL_append (p c : List Char) : startsWithL (p ++ c) p = true := by
  induction p with
  | nil => simp [startsWithL]
  | cons a p ih => simp [startsWithL, ih]

theorem containsL_self_append (p c : List Char) : containsL p (p ++ c) = true := by
  cases h : p ++ c with
  | nil =>
    have hp : p = [] := (List.append_eq_nil.mp h).1
    have hc : c = [] := (List.append_eq_nil.mp h).2
    subst hp; subst hc
    simp [containsL, startsWithL]
  | cons x l =>
    simp only [containsL]
    rw [← h, startsWithL_append]
    simp

theorem containsL_append_left (a p c : List Char) :
    containsL p (a ++ (p ++ c)) = true := by
  induction a with
  | nil => simpa using containsL_self_append p c
  | cons x a ih =>
    show containsL p (x :: (a ++ (p ++ c))) = true
    simp [containsL, ih]

theorem jsIncludes_middle (a b c : String) : jsIncludes (a ++ (b ++ c)) b = true := by
  unfold jsIncludes
  rw [String.data_append, String.data_append]
  exact containsL_append_left a.data b.data c.data

theorem jsIncludes_left (b c : String) : jsIncludes (b ++ c) b = true := by
  unfold jsIncludes
  rw [String.data_append]
  exact containsL_self_append b.data c.data

/-! ### Helper lemmas: splitting on `"::"` -/

theorem splitDC_no_colon : ∀ (l : List Char), ':' ∉ l → splitDC l = [l]
  | [], _ => rfl
  | [_], _ => rfl
  | c₁ :: c₂ :: rest, h => by
    have h₁ : c₁ ≠ ':' := fun e => h (by simp [e])
    have hrest : ':' ∉ c₂ :: rest := fun e => h (List.mem_cons_of_mem _ e)
    have ih := splitDC_no_colon (c₂ :: rest) hrest
    simp only [splitDC]
    rw [if_neg (by rintro ⟨e, _⟩; exact h₁ e), ih]

theorem splitDC_append_sep : ∀ (s t : List Char), ':' ∉ s →
    splitDC (s ++ ':' :: ':' :: t) = s :: splitDC t
  | [], t, _ => by
    show splitDC (':' :: ':' :: t) = [] :: splitDC t
    simp [splitDC]
  | c :: s', t, h => by
    have hc : c ≠ ':' := fun e => h (by simp [e])
    have hs' : ':' ∉ s' := fun e => h (List.mem_cons_of_mem _ e)
    have ih := splitDC_append_sep s' t hs'
    cases s' with
    | nil =>
      show splitDC (c :: ':' :: ':' :: t) = [c] :: splitDC t
      simp [splitDC, hc]
    | cons d s'' =>
      have ih' : splitDC (d :: (s'' ++ ':' :: ':' :: t)) = (d :: s'') :: splitDC t := ih
      show splitDC (c :: d :: (s'' ++ ':' :: ':' :: t)) = (c :: d :: s'') :: splitDC t
      simp [splitDC, hc, ih']

theorem jsSplit_joinDC : ∀ (segs : List String), segs ≠ [] →
    (∀ s ∈ segs, ':' ∉ s.data) → jsSplitDoubleColon (joinDC segs) = segs
  | [], hne, _ => absurd rfl hne
  | [s], _, h2 => by
    show jsSplitDoubleColon s = [s]
    unfold jsSplitDoubleColon
    rw [splitDC_no_colon s.data (h2 s (by simp))]
    rfl
  | s :: s₂ :: rest, _, h2 => by
    have ih := jsSplit_joinDC (s₂ :: rest) (by simp)
      (fun x hx => h2 x (List.mem_cons_of_mem s hx))
    show jsSplitDoubleColon (s ++ "::" ++ joinDC (s₂ :: rest)) = s :: s₂ :: rest
    unfold jsSplitDoubleColon
    have hdata : (s ++ "::" ++ joinDC (s₂ :: rest)).data
        = s.data ++ ':' :: ':' :: (joinDC (s₂ :: rest)).data := by
      rw [String.data_append, String.data_append, List.append_assoc]
      rfl
    rw [hdata, splitDC_append_sep s.data _ (h2 s (by simp))]
    unfold jsSplitDoubleColon at ih
    simp only [List.map_cons]
    rw [show (splitDC (joinDC (s₂ :: rest)).data).map (fun l => String.mk l)
        = s₂ :: rest from ih]

/-! ### Helper lemmas: `filter`/`findIndex` deduplication -/

theorem jsFindIndex_append_of_none (q : IndexedItem → Bool) :
    ∀ (ys zs : List IndexedItem), (∀ y ∈ ys, q y = false) →
      jsFindIndex q (ys ++ zs) = (jsFindIndex q zs).map (· + ys.length)
  | [], zs, _ => by
    cases hfi : jsFindIndex q zs <;> simp [hfi]
  | y :: ys, zs, h => by
    have hy : q y = false := h y (List.mem_cons_self _ _)
    have ih := jsFindIndex_append_of_none q ys zs
      (fun x hx => h x (List.mem_cons_of_mem _ hx))
    show jsFindIndex q (y :: (ys ++ zs)) = _
    simp only [jsFindIndex, hy, Bool.false_eq_true, if_false, ih]
    cases jsFindIndex q zs <;> simp [Nat.add_assoc]

theorem jsFindIndex_append_of_mem (q : IndexedItem → Bool) :
    ∀ (ys zs : List IndexedItem), (∃ y ∈ ys, q y = true) →
      ∃ k, k < ys.length ∧ jsFindIndex q (ys ++ zs) = some k
  | [], _, h => by simp at h
  | y :: ys, zs, h => by
    by_cases hy : q y = true
    · exact ⟨0, by simp, by simp [jsFindIndex, hy]⟩
    · obtain ⟨x, hx, hqx⟩ := h
      have hxys : x ∈ ys := by
        rcases List.mem_cons.mp hx with rfl | hm
        · exact absurd hqx hy
        · exact hm
      obtain ⟨k, hk, hfi⟩ := jsFindIndex_append_of_mem q ys zs ⟨x, hxys, hqx⟩
      refine ⟨k + 1, by simpa using Nat.succ_lt_succ hk, ?_⟩
      show jsFindIndex q (y :: (ys ++ zs)) = some (k + 1)
      simp [jsFindIndex, hy, hfi]

theorem specDedup_congr : ∀ (l : List IndexedItem) (s₁ s₂ : List (String × String)),
    (∀ k, k ∈ s₁ ↔ k ∈ s₂) → specDedup s₁ l = specDedup s₂ l
  | [], _, _, _ => rfl
  | x :: xs, s₁, s₂, h => by
    by_cases hx : (x.name, x.type) ∈ s₁
    · simp only [specDedup]
      rw [if_pos hx, if_pos ((h _).mp hx)]
      exact specDedup_congr xs s₁ s₂ h
    · simp only [specDedup]
      rw [if_neg hx, if_neg (fun hm => hx ((h _).mpr hm))]
      refine congrArg (x :: ·) ?_
      refine specDedup_congr xs _ _ (fun k => ?_)
      simp only [List.mem_cons]
      exact or_congr Iff.rfl (h k)

theorem specDedup_sublist : ∀ (l : List IndexedItem) (seen : List (String × String)),
    List.Sublist (specDedup seen l) l
  | [], _ => List.Sublist.slnil
  | x :: xs, seen => by
    by_cases hx : (x.name, x.type) ∈ seen
    · simp only [specDedup]
      rw [if_pos hx]
      exact (specDedup_sublist xs seen).trans (List.sublist_cons_self x xs)
    · simp only [specDedup]
      rw [if_neg hx]
      exact List.Sublist.cons₂ x (specDedup_sublist xs _)

theorem jsDedupFrom_eq_specDedup :
    ∀ (rest p : List IndexedItem),
      jsDedupFrom (p ++ rest) p.length rest
        = specDedup (p.map (fun i => (i.name, i.type))) rest
  | [], _ => rfl
  | x :: xs, p => by
    have ih := jsDedupFrom_eq_specDedup xs (p ++ [x])
    have hihl : jsDedupFrom (p ++ x :: xs) (p.length + 1) xs
        = specDedup (p.map (fun i => (i.name, i.type)) ++ [(x.name, x.type)]) xs := by
      have e1 : (p ++ [x]) ++ xs = p ++ x :: xs := by simp
      have e2 : (p ++ [x]).length = p.length + 1 := by simp
      have e3 : (p ++ [x]).map (fun i => (i.name, i.type))
          = p.map (fun i => (i.name, i.type)) ++ [(x.name, x.type)] := by simp
      rw [e1, e2, e3] at ih
      exact ih
    by_cases hmem : (x.name, x.type) ∈ p.map (fun i => (i.name, i.type))
    · obtain ⟨y, hy, hkey⟩ := List.mem_map.mp hmem
      have hqy : (fun i => i.name == x.name && i.type == x.type) y = true := by
        have h1 : y.name = x.name := congrArg Prod.fst hkey
        have h2 : y.type = x.type := congrArg Prod.snd hkey
        simp [h1, h2]
      obtain ⟨k, hk, hfi⟩ := jsFindIndex_append_of_mem
        (fun i => i.name == x.name && i.type == x.type) p (x :: xs) ⟨y, hy, hqy⟩
      show (if jsFindIndex (fun i => i.name == x.name && i.type == x.type)
            (p ++ x :: xs) = some p.length
          then x :: jsDedupFrom (p ++ x :: xs) (p.length + 1) xs
          else jsDedupFrom (p ++ x :: xs) (p.length + 1) xs) = _
      rw [if_neg (by rw [hfi]; intro he; exact absurd (Option.some.inj he) (Nat.ne_of_lt hk))]
      rw [hihl]
      rw [specDedup_congr xs _ (p.map (fun i => (i.name, i.type)))
        (fun k => by
          simp only [List.mem_append, List.mem_singleton]
          constructor
          · rintro (hk | rfl)
            · exact hk
            · exact hmem
          · exact fun hk => Or.inl hk)]
      show _ = (if (x.name, x.type) ∈ p.map (fun i => (i.name, i.type))
          then specDedup (p.map (fun i => (i.name, i.type))) xs
          else x :: specDedup ((x.name, x.type) :: p.map (fun i => (i.name, i.type))) xs)
      rw [if_pos hmem]
    · have hall : ∀ y ∈ p, (fun i => i.name == x.name && i.type == x.type) y = false := by
        intro y hy
        cases hb : (y.name == x.name && y.type == x.type) with
        | false => exact hb
        | true =>
          exfalso
          rw [Bool.and_eq_true] at hb
          exact hmem (List.mem_map.mpr
            ⟨y, hy, by rw [beq_iff_eq.mp hb.1, beq_iff_eq.mp hb.2]⟩)
      have hfi : jsFindIndex (fun i => i.name == x.name && i.type == x.type)
          (p ++ x :: xs) = some p.length := by
        rw [jsFindIndex_append_of_none _ p (x :: xs) hall]
        have hx : jsFindIndex (fun i => i.name == x.name && i.type == x.type)
            (x :: xs) = some 0 := by
          simp [jsFindIndex]
        rw [hx]
        simp
      show (if jsFindIndex (fun i => i.name == x.name && i.type == x.type)
            (p ++ x :: xs) = some p.length
          then x :: jsDedupFrom (p ++ x :: xs) (p.length + 1) xs
          else jsDedupFrom (p ++ x :: xs) (p.length + 1) xs) = _
      rw [if_pos hfi, hihl]
      rw [specDedup_congr xs _ ((x.name, x.type) :: p.map (fun i => (i.name, i.type)))
        (fun k => by
          simp only [List.mem_append, List.mem_singleton, List.mem_cons,
            List.not_mem_nil, or_false]
          exact or_comm)]
      show _ = (if (x.name, x.type) ∈ p.map (fun i => (i.name, i.type))
          then specDedup (p.map (fun i => (i.name, i.type))) xs
          else x :: specDedup ((x.name, x.type) :: p.map (fun i => (i.name, i.type))) xs)
      rw [if_neg hmem]

theorem jsDedup_eq_specDedup (l : List IndexedItem) :
    jsDedup l = specDedup [] l := by
  have h := jsDedupFrom_eq_specDedup l []
  simpa [jsDedup] using h

theorem jsDedup_sublist (l : List IndexedItem) : List.Sublist (jsDedup l) l := by
  rw [jsDedup_eq_specDedup]
  exact specDedup_sublist l []

theorem collectItems_type_ne_unknown :
    ∀ (c v : String) (q it : Option String) (links : List (String × String))
      (item : IndexedItem),
      item ∈ collectItems c v q it links → item.type ≠ "unknown"
  | c, v, q, it, [], item, h => by simp [collectItems] at h
  | c, v, q, it, (text, href) :: rest, item, h => by
    have ih := collectItems_type_ne_unknown c v q it rest item
    simp only [collectItems] at h
    by_cases h₁ : jsTrim text = "" ∨ href = ""
    · rw [if_pos h₁] at h
      exact ih h
    · rw [if_neg h₁] at h
      by_cases h₂ : (matchesQueryFilter q (jsTrim text) &&
          matchesTypeFilter it (classifyLink href) (jsTrim text) &&
          !(classifyLink href == "unknown")) = true
      · rw [if_pos h₂] at h
        rcases List.mem_cons.mp h with rfl | hm
        · rw [Bool.and_eq_true] at h₂
          have h₃ := h₂.2
          have h₄ : (classifyLink href == "unknown") = false := by
            cases hb : (classifyLink href == "unknown") with
            | false => rfl
            | true => rw [hb] at h₃; exact absurd h₃ (by decide)
          exact beq_eq_false_iff_ne.mp h₄
        · exact ih hm
      · rw [if_neg h₂] at h
        exact ih h

instance : DecidableEq ToolResult := fun x y =>
  match x, y with
  | .ok a, .ok b =>
    if h : a = b then isTrue (by rw [h])
    else isFalse (fun he => h (Except.ok.inj he))
  | .error a, .error b =>
    if h : a = b then isTrue (by rw [h])
    else isFalse (fun he => h (Except.error.inj he))
  | .ok _, .error _ => isFalse (fun he => Except.noConfusion he)
  | .error _, .ok _ => isFalse (fun he => Except.noConfusion he)

/-! ### Claim theorems -/

/-- C6: in `searchInCrate` every candidate link's type is classified purely by
substring match against the link target, checked in the fixed priority order
struct, trait, function, enum, type, constant, static, macro, first match
winning and no match giving `"unknown"` (refinement against the spec's
ordered-table classifier), and no item with classified type `"unknown"` ever
appears in the returned results, regardless of the name or type filters. -/
theorem searchInCrate_classification :
    (∀ link, classifyLink link = classifySpec link) ∧
    (∀ (c v : String) (q it : Option String) (links : List (String × String)),
      (searchInCrateItems c v q it links).all
        (fun item => !(item.type == "unknown")) = true) := by
  constructor
  · intro link
    cases h1 : jsIncludes link "struct." <;>
      cases h2 : jsIncludes link "trait." <;>
        cases h3 : jsIncludes link "fn." <;>
          cases h4 : jsIncludes link "enum." <;>
            cases h5 : jsIncludes link "type." <;>
              cases h6 : jsIncludes link "const." <;>
                cases h7 : jsIncludes link "static." <;>
                  cases h8 : jsIncludes link "macro." <;>
      simp [classifyLink, classifySpec, typePatterns, List.find?,
        h1, h2, h3, h4, h5, h6, h7, h8]
  · intro c v q it links
    rw [List.all_eq_true]
    intro item hmem
    have hsub : List.Sublist (searchInCrateItems c v q it links)
        (collectItems c v q it links) := jsDedup_sublist _
    have hmem' : item ∈ collectItems c v q it links := hsub.subset hmem
    have hne := collectItems_type_ne_unknown c v q it links item hmem'
    have hb : (item.type == "unknown") = false := beq_eq_false_iff_ne.mpr hne
    simp [hb]

/-- C7: the items returned by `searchInCrate` are deduplicated by the
`(name, classified type)` identity key, keeping the first-encountered item
(even when the link targets differ) and preserving the original encounter
order: the `filter`/`findIndex` implementation coincides with the
first-occurrence-keeping `specDedup`, the result is a sublist of the
collected items, and on two same-name same-type links with different targets
only the first survives. -/
theorem searchInCrate_dedup :
    (∀ (c v : String) (q it : Option String) (links : List (String × String)),
      searchInCrateItems c v q it links
        = specDedup [] (collectItems c v q it links) ∧
      List.Sublist (searchInCrateItems c v q it links)
        (collectItems c v q it links)) ∧
    searchInCrateItems "tokio" "latest" none none
        [("Mutex", "struct.Mutex.html"), ("Mutex", "sync/struct.Mutex.html")]
      = [{ name := "Mutex", type := "struct",
           link := "https://docs.rs/tokio/latest/tokio/struct.Mutex.html" }] := by
  refine ⟨fun c v q it links => ⟨jsDedup_eq_specDedup _, jsDedup_sublist _⟩, ?_⟩
  decide

/-- C8: in `searchInCrate`, for every non-empty `typeQuery` an item passes
the type filter iff its classified type equals the query (case-sensitive
exact) or its visible name case-insensitively contains the query as a
substring; an empty or absent `typeQuery` matches every item. -/
theorem searchInCrate_typeFilter (tq type itemName : String) (h : tq ≠ "") :
    (matchesTypeFilter (some tq) type itemName = true ↔
      type = tq ∨ jsIncludes (jsToLower itemName) (jsToLower tq) = true) ∧
    matchesTypeFilter none type itemName = true ∧
    matchesTypeFilter (some "") type itemName = true := by
  refine ⟨?_, rfl, by simp [matchesTypeFilter]⟩
  unfold matchesTypeFilter
  have he : (tq == "") = false := beq_eq_false_iff_ne.mpr h
  simp [he]

theorem searchInCrate_typeFilter_witness :
    matchesTypeFilter (some "struct") "struct" "Foo" = true :=
  (searchInCrate_typeFilter "struct" "struct" "Foo" (by decide)).1.mpr (Or.inl rfl)

/-- C10: the classification patterns are unanchored substrings of the full
link target: any target containing `struct.` anywhere — including inside a
longer word such as `fn.construct.html` — is classified `struct`, because
the `struct.` pattern is checked first. -/
theorem classifyLink_struct_priority (link : String)
    (h : jsIncludes link "struct." = true) : classifyLink link = "struct" := by
  unfold classifyLink
  rw [if_pos h]

theorem classifyLink_struct_priority_witness :
    jsIncludes "fn.construct.html" "struct." = true ∧
      classifyLink "fn.construct.html" = "struct" :=
  ⟨by decide, classifyLink_struct_priority "fn.construct.html" (by decide)⟩

/-- C4: for every non-module item kind, `getItem` resolves the documentation
URL by splitting the `::`-separated item path into the containing module path
(all segments but the last, joined with `/`) and the simple name (the last
segment), yielding
`https://docs.rs/{crate}/{version}/{modulePath}/{kind}.{simpleName}.html`;
in particular the tokio/sync/Mutex example resolves exactly as stated. -/
theorem resolveItemUrl_nonmodule (crate version kind : String)
    (segs : List String) (hk : kind ≠ "module") (hne : segs ≠ [])
    (hcol : ∀ s ∈ segs, ':' ∉ s.data) :
    resolveItemUrl crate version kind (joinDC segs)
      = "https://docs.rs/" ++ crate ++ "/" ++ version ++ "/" ++
        String.intercalate "/" segs.dropLast ++ "/" ++ kind ++ "." ++
        (segs.getLast?.getD "") ++ ".html" ∧
    resolveItemUrl "tokio" "1.0.0" "struct" "tokio::sync::Mutex"
      = "https://docs.rs/tokio/1.0.0/tokio/sync/struct.Mutex.html" := by
  refine ⟨?_, by decide⟩
  simp only [resolveItemUrl]
  rw [jsSplit_joinDC segs hne hcol, if_neg hk]

theorem resolveItemUrl_nonmodule_witness :
    resolveItemUrl "tokio" "1.0.0" "struct" (joinDC ["tokio", "sync", "Mutex"])
      = "https://docs.rs/" ++ "tokio" ++ "/" ++ "1.0.0" ++ "/" ++
        String.intercalate "/" (["tokio", "sync", "Mutex"].dropLast) ++ "/" ++
        "struct" ++ "." ++
        ((["tokio", "sync", "Mutex"] : List String).getLast?.getD "") ++ ".html" :=
  (resolveItemUrl_nonmodule "tokio" "1.0.0" "struct" ["tokio", "sync", "Mutex"]
    (by decide) (by decide) (by decide)).1

/-- C5 (counterexample): for the single-segment path `Mutex` the resolved URL
is `https://docs.rs/tokio/latest//struct.Mutex.html` — the empty module path
still contributes an (empty) path segment, a double slash — and not the
claimed leaf directly under the crate root. -/
theorem resolveItemUrl_single_segment_counterexample :
    resolveItemUrl "tokio" "latest" "struct" "Mutex"
      = "https://docs.rs/tokio/latest//struct.Mutex.html" ∧
    resolveItemUrl "tokio" "latest" "struct" "Mutex"
      ≠ "https://docs.rs/tokio/latest/struct.Mutex.html" := by
  constructor <;> decide

/-- C5 (amended): for every non-module item with a single-segment path, the
empty module-path prefix is still interpolated between two slashes, so the
URL is `https://docs.rs/{crate}/{version}//{kind}.{simpleName}.html` with a
double slash before the leaf file. -/
theorem resolveItemUrl_single_segment (crate version kind name : String)
    (hk : kind ≠ "module") (hcol : ':' ∉ name.data) :
    resolveItemUrl crate version kind name
      = "https://docs.rs/" ++ crate ++ "/" ++ version ++ "//" ++ kind ++ "." ++
        name ++ ".html" := by
  have hsplit : jsSplitDoubleColon name = [name] := by
    unfold jsSplitDoubleColon
    rw [splitDC_no_colon name.data hcol]
    rfl
  simp only [resolveItemUrl, hsplit]
  rw [if_neg hk]
  simp only [List.dropLast_single, List.getLast?_singleton, Option.getD_some]
  have hi : String.intercalate "/" ([] : List String) = "" := rfl
  rw [hi]
  apply String.ext
  have h1 : ("/" : String).data = ['/'] := rfl
  have h2 : ("//" : String).data = ['/', '/'] := rfl
  have h3 : ("" : String).data = [] := rfl
  simp only [String.data_append, List.append_assoc, h1, h2, h3,
    List.singleton_append, List.cons_append, List.nil_append]

theorem resolveItemUrl_single_segment_witness :
    resolveItemUrl "tokio" "latest" "struct" "Mutex"
      = "https://docs.rs/" ++ "tokio" ++ "/" ++ "latest" ++ "//" ++ "struct" ++
        "." ++ "Mutex" ++ ".html" :=
  resolveItemUrl_single_segment "tokio" "latest" "struct" "Mutex"
    (by decide) (by decide)

/-- C2 (counterexample): with `#main-content` present but empty and a
declaration and description block both present, the fragment is `""` — the
fallback selectors are not tried, contradicting the claim that a present-but-
empty container falls through to them. -/
theorem mainContent_empty_counterexample :
    extractItemContent { mainContent := some "",
                         itemDecl := some "<code>A</code>",
                         docblock := some "<p>B</p>", altItemDecl := none } = "" ∧
    extractItemContent { mainContent := some "",
                         itemDecl := some "<code>A</code>",
                         docblock := some "<p>B</p>", altItemDecl := none }
      ≠ "<code>A</code>" ++ "<p>B</p>" := by
  constructor <;> decide

/-- C2 (amended): `#main-content` short-circuits exactly when it is present
(selection non-empty), regardless of whether its inner markup is empty: if
present, its inner markup (possibly `""`) is the whole fragment and the
fallback selectors are not tried; the fallbacks are tried only when the
container is absent. -/
theorem mainContent_shortCircuit (page : Page) :
    (∀ h, page.mainContent = some h → extractItemContent page = h) ∧
    (page.mainContent = none →
      extractItemContent page
        = htmlOrEmpty page.itemDecl ++
          (match page.docblock with
           | some h => h
           | none => htmlOrEmpty page.altItemDecl)) := by
  obtain ⟨mc, idl, db, alt⟩ := page
  constructor
  · intro h hm
    subst hm
    simp [extractItemContent]
  · intro hm
    subst hm
    cases idl <;> cases db <;> cases alt <;>
      simp [extractItemContent, htmlOrEmpty, String.append_empty]

theorem mainContent_shortCircuit_witness :
    extractItemContent { mainContent := some "<p>hi</p>", itemDecl := some "X",
                         docblock := some "Y", altItemDecl := some "Z" } = "<p>hi</p>" ∧
    extractItemContent { mainContent := none, itemDecl := some "X",
                         docblock := some "Y", altItemDecl := some "Z" } = "X" ++ "Y" :=
  ⟨(mainContent_shortCircuit _).1 "<p>hi</p>" rfl,
   (mainContent_shortCircuit _).2 rfl⟩

/-- C3 (counterexample): with `#main-content` absent, the declaration block
present (`"A"`), the description block absent and the alternate declaration
block present (`"B"`), the fragment is `"AB"` — the alternate selector's
content is included even though the declaration block was found,
contradicting the claim. -/
theorem altDecl_included_counterexample :
    extractItemContent { mainContent := none, itemDecl := some "A",
                         docblock := none, altItemDecl := some "B" } = "A" ++ "B" ∧
    extractItemContent { mainContent := none, itemDecl := some "A",
                         docblock := none, altItemDecl := some "B" } ≠ "A" := by
  constructor <;> decide

/-- C3 (amended): when `#main-content` is absent, the alternate
declaration-block selector (`.rustdoc-main .item-decl`) is consulted exactly
when the description block (`.rustdoc .docblock`) is absent — regardless of
whether the declaration block was found — and its content is appended after
any declaration-block content; when the description block is present the
alternate's content is never included. -/
theorem altDecl_fallback (page : Page) (hm : page.mainContent = none) :
    (page.docblock = none →
      extractItemContent page
        = htmlOrEmpty page.itemDecl ++ htmlOrEmpty page.altItemDecl) ∧
    (∀ h, page.docblock = some h →
      extractItemContent page = htmlOrEmpty page.itemDecl ++ h) := by
  obtain ⟨mc, idl, db, alt⟩ := page
  subst hm
  constructor
  · intro hd
    subst hd
    cases idl <;> cases alt <;>
      simp [extractItemContent, htmlOrEmpty, String.append_empty]
  · intro h hd
    subst hd
    cases idl <;> simp [extractItemContent, htmlOrEmpty]

theorem altDecl_fallback_witness :
    extractItemContent { mainContent := none, itemDecl := some "sig",
                         docblock := none, altItemDecl := some "alt" } = "sig" ++ "alt" ∧
    extractItemContent { mainContent := none, itemDecl := some "sig",
                         docblock := some "doc", altItemDecl := some "alt" } = "sig" ++ "doc" :=
  ⟨(altDecl_fallback _ rfl).1 rfl, (altDecl_fallback _ rfl).2 "doc" rfl⟩

/-- C1 (counterexample): in the `getReadMe` branch where the description
block is absent but the alternate declaration selector matches, the payload
is a successful response with an empty rendered body — it does not contain
the sentence `No documentation content found at {url}` the claim promises
for every empty-fragment branch. -/
theorem getReadMe_alt_branch_counterexample :
    getReadMe "serde" "latest"
        (.ok { mainContent := none, itemDecl := none, docblock := none,
               altItemDecl := some "<pre>x</pre>" }) (fun s => s)
      = .ok "# serde Documentation\n\n" ∧
    jsIncludes "# serde Documentation\n\n" "No documentation content found"
      = false := by
  constructor <;> decide

/-- C1 (amended): `getItem` returns the successful not-found payload with the
attempted URL (never an error) whenever extraction yields an empty fragment,
in every extractor branch; `getReadMe` returns that payload exactly when both
the description block and the alternate declaration block are absent, while
in the branch where the description block is absent but the alternate
matches it returns a successful payload rendering the empty fragment,
without the not-found sentence (still never an error). -/
theorem emptyFragment_payloads (crate_name item_type item_path version : String)
    (page : Page) (td : String → String) :
    (extractItemContent page = "" →
      getItem crate_name item_type item_path version (.ok page) td
        = .ok ("# " ++ item_path ++ " (" ++ item_type ++
            ")\n\nNo documentation content found at "
            ++ resolveItemUrl crate_name version item_type item_path)) ∧
    (page.docblock = none → page.altItemDecl = none →
      getReadMe crate_name version (.ok page) td
        = .ok ("# " ++ crate_name ++
            " Documentation\n\nNo documentation content found at "
            ++ ("https://docs.rs/" ++ crate_name ++ "/" ++ version ++ "/" ++
                crate_name ++ "/index.html"))) ∧
    (page.docblock = none → page.altItemDecl ≠ none →
      getReadMe crate_name version (.ok page) td
        = .ok ("# " ++ crate_name ++ " Documentation\n\n" ++ td "")) := by
  refine ⟨?_, ?_, ?_⟩
  · intro he
    simp only [getItem]
    rw [if_pos he]
  · intro h1 h2
    simp only [getReadMe]
    rw [h1, h2, if_pos ⟨rfl, rfl⟩]
  · intro h1 h2
    obtain ⟨a, ha⟩ := Option.ne_none_iff_exists'.mp h2
    simp only [getReadMe]
    rw [h1, ha, if_neg (fun hc => by simpa using hc.2)]
    rfl

theorem emptyFragment_payloads_witness :
    getItem "tokio" "struct" "tokio::sync::Mutex" "1.0.0"
        (.ok { mainContent := some "", itemDecl := none, docblock := none,
               altItemDecl := none }) (fun s => s)
      = .ok ("# " ++ "tokio::sync::Mutex" ++ " (" ++ "struct" ++
          ")\n\nNo documentation content found at "
          ++ resolveItemUrl "tokio" "1.0.0" "struct" "tokio::sync::Mutex") ∧
    getReadMe "serde" "latest"
        (.ok { mainContent := none, itemDecl := none, docblock := none,
               altItemDecl := none }) (fun s => s)
      = .ok ("# " ++ "serde" ++
          " Documentation\n\nNo documentation content found at "
          ++ ("https://docs.rs/" ++ "serde" ++ "/" ++ "latest" ++ "/" ++
              "serde" ++ "/index.html")) ∧
    getReadMe "serde" "latest"
        (.ok { mainContent := none, itemDecl := none, docblock := none,
               altItemDecl := some "<pre>x</pre>" }) (fun s => s)
      = .ok ("# " ++ "serde" ++ " Documentation\n\n" ++ (fun s : String => s) "") :=
  ⟨(emptyFragment_payloads "tokio" "struct" "tokio::sync::Mutex" "1.0.0" _ _).1
      (by decide),
   (emptyFragment_payloads "serde" "" "" "latest" _ _).2.1 rfl rfl,
   (emptyFragment_payloads "serde" "" "" "latest" _ _).2.2 rfl
      (Option.some_ne_none _)⟩

/-- C9: a network fetch failure during `getReadMe` surfaces as an error (not
a normal payload) whose message contains both the word `Failed` and the
crate name. -/
theorem getReadMe_fetch_failure (crate_name version e : String)
    (td : String → String) :
    ∃ msg, getReadMe crate_name version (.error e) td = .error msg ∧
      jsIncludes msg "Failed" = true ∧ jsIncludes msg crate_name = true := by
  refine ⟨"Failed to get README for " ++ crate_name ++ ": " ++ e, rfl, ?_, ?_⟩
  · have hsp : ("Failed to get README for " : String)
        = "Failed" ++ " to get README for " := rfl
    rw [hsp]
    simp only [String.append_assoc]
    exact jsIncludes_left "Failed" _
  · simp only [String.append_assoc]
    exact jsIncludes_middle "Failed to get README for " crate_name _

end DocsRsMcp
